import Mathlib

/-!
Shallow embedding of `src/cli/src/cmd/forge/remapper_local.rs`
(the `LocalRemapper` flattening/remapping engine) and proofs about it.

Modelling conventions:
* A filesystem path (`PathBuf`) is a list of components (`List String`);
  an absolute path starts with the empty component, mirroring how
  splitting an absolute unix path string on the separator behaves.
* `HashMap` is modelled as an association list with first-match lookup
  and in-place replacement on insert.
* Filesystem effects (`canonicalize`, directory existence/creation,
  file writes) are parameters of the model (`FSModel`); the list of
  performed writes is threaded explicitly as the "disk".
* The import regular expression
  `import\s+(\x7b.*?\x7d\s+from\s+)?["<sq>]([^"<sq>]+)["<sq>];`
  (with `<sq>` the single-quote character) is modelled as a character
  level matcher with the regex crate's leftmost-first semantics:
  `\s` is modelled for the ASCII whitespace characters, `.` matches
  every character except the newline, the lazy `.*?` tries shorter
  extents first, and the optional group is tried before its absence.
-/

namespace Remap

/-! ### Characters and character classes -/

def dqCh : Char := Char.ofNat 34

def sqCh : Char := Char.ofNat 39

def nlCh : Char := Char.ofNat 10

def lbraceCh : Char := Char.ofNat 123

def rbraceCh : Char := Char.ofNat 125

def semiCh : Char := Char.ofNat 59

def dotCh : Char := Char.ofNat 46

def slashCh : Char := Char.ofNat 47

/-- ASCII model of the regex class `\s`. -/
def isWsChar (c : Char) : Bool :=
  c.toNat = 32 || c.toNat = 9 || c.toNat = 10 || c.toNat = 11 || c.toNat = 12 || c.toNat = 13

/-- Membership in the regex class of quote characters. -/
def isQuoteCh (c : Char) : Bool :=
  c.toNat = 34 || c.toNat = 39

/-! ### Paths -/

/-- A `PathBuf`, as its list of components. -/
abbrev FsPath := List String

/-- Errors (`anyhow::Error` carrying a message). -/
abbrev Err := String

/-- Splitting a string on the path separator, accumulator style. -/
def splitSlashAux : List Char → List Char → List String
  | acc, [] => [String.mk acc]
  | acc, c :: cs =>
    if c = slashCh then String.mk acc :: splitSlashAux [] cs
    else splitSlashAux (acc ++ [c]) cs

/-- Model of `PathBuf::from` on a string. -/
def stringToPath (s : String) : FsPath :=
  if s = "" then [] else splitSlashAux [] s.data

def startsWithSlash (s : String) : Bool :=
  match s.data with
  | c :: _ => c = slashCh
  | [] => false

/-- Model of `Path::join` with a string argument: an absolute argument
replaces the path, a relative one is appended componentwise. -/
def joinPathStr (dir : FsPath) (s : String) : FsPath :=
  if startsWithSlash s then stringToPath s else dir ++ stringToPath s

/-- Model of `Path::parent`: drop the last component.  The root-path
edge case is irrelevant to the inputs considered here. -/
def parent (p : FsPath) : Option FsPath :=
  match p with
  | [] => none
  | _ => some p.dropLast

/-- Split a character list at its last dot: `some (before, after)`. -/
def lastDotSplit : List Char → Option (List Char × List Char)
  | [] => none
  | c :: cs =>
    match lastDotSplit cs with
    | some (pre, suf) => some (c :: pre, suf)
    | none => if c = dotCh then some ([], cs) else none

/-- Model of `Path::file_stem` on one file name: the portion before the
final dot, except that a file name with no dot, or whose only dot is
leading, is its own stem. -/
def stemOfName (s : String) : String :=
  match lastDotSplit s.data with
  | none => s
  | some (pre, _) => if pre = [] then s else String.mk pre

/-- Model of `Path::file_stem`. -/
def file_stem (p : FsPath) : Option String :=
  match p.getLast? with
  | none => none
  | some s => if s = "" ∨ s = "." ∨ s = ".." then none else some (stemOfName s)

/-- Model of `Path::extension`: the portion after the final dot of the
file name, when the stem is a proper prefix. -/
def extension (p : FsPath) : Option String :=
  match p.getLast? with
  | none => none
  | some s =>
    if s = "" ∨ s = "." ∨ s = ".." then none
    else
      match lastDotSplit s.data with
      | none => none
      | some (pre, suf) => if pre = [] then none else some (String.mk suf)

/-! ### Association lists (model of `HashMap`) -/

def alookup {α β : Type} [DecidableEq α] : List (α × β) → α → Option β
  | [], _ => none
  | (k, v) :: rest, a => if k = a then some v else alookup rest a

def ainsert {α β : Type} [DecidableEq α] : List (α × β) → α → β → List (α × β)
  | [], a, b => [(a, b)]
  | (k, v) :: rest, a, b =>
    if k = a then (a, b) :: rest else (k, v) :: ainsert rest a b

/-! ### The remapper state and the filesystem model -/

/-- The fields of `struct LocalRemapper`. -/
structure LocalRemapper where
  temp_directory : String
  changed_filenames : List (FsPath × (FsPath × String))
  project_paths : List (String × FsPath)
  remappings : List (String × String)
  contract_name_count : List (String × Nat)
  contract_content_map : List (String × String)
  contract_paths_map : List (FsPath × FsPath)

/-- Model of `LocalRemapper::new`. -/
def LocalRemapper.new (temp_directory : String)
    (project_paths : List (String × FsPath))
    (remappings : List (String × String)) : LocalRemapper :=
  ⟨temp_directory, [], project_paths, remappings, [], [], []⟩

/-- The ambient filesystem, as the model's parameter: `canon` is
`Path::canonicalize` (`none` meaning failure), `dirExists` is
`Path::exists`, `createDirOk` tells whether `fs::create_dir_all`
succeeds, `writeOk` tells whether creating and writing a file succeeds. -/
structure FSModel where
  canon : FsPath → Option FsPath
  dirExists : FsPath → Bool
  createDirOk : FsPath → Bool
  writeOk : FsPath → Bool

/-! ### The import matcher (model of the regex scan) -/

/-- Strip a literal token off the front of a character list. -/
def stripTok : List Char → List Char → Option (List Char)
  | [], l => some l
  | _ :: _, [] => none
  | t :: ts, c :: cs => if c = t then stripTok ts cs else none

/-- Match the tail section `["<sq>]([^"<sq>]+)["<sq>];` of the regex:
on success, the quoted path capture and the number of characters
consumed. -/
def quoteSec (l : List Char) : Option (List Char × Nat) :=
  match l with
  | [] => none
  | q :: cs =>
    if isQuoteCh q then
      let run := cs.takeWhile (fun c => !(isQuoteCh c))
      let rest := cs.dropWhile (fun c => !(isQuoteCh c))
      if run.isEmpty then none
      else
        match rest with
        | q2 :: s :: _ =>
          if isQuoteCh q2 && s = semiCh then some (run, run.length + 3) else none
        | _ => none
    else none

/-- Match `\s+from\s+` followed by the quote section: on success, the
characters of the `\s+from\s+` portion, the path capture, and the
number of characters the quote section consumed. -/
def attemptFrom (cs : List Char) : Option (List Char × List Char × Nat) :=
  let ws1 := cs.takeWhile isWsChar
  let r1 := cs.dropWhile isWsChar
  if ws1.isEmpty then none
  else
    match stripTok "from".data r1 with
    | none => none
    | some r2 =>
      let ws2 := r2.takeWhile isWsChar
      let r3 := r2.dropWhile isWsChar
      if ws2.isEmpty then none
      else
        match quoteSec r3 with
        | none => none
        | some (pathCs, m) => some (ws1 ++ "from".data ++ ws2, pathCs, m)

/-- The lazy scan inside the optional named-import group: `acc` holds
the characters the lazy `.*?` has consumed so far (none of them a
newline).  At each closing brace the continuation is attempted; on
failure the brace is consumed by `.*?` and the scan continues, exactly
the preference order of a lazy repetition. -/
def itemsLoop : List Char → List Char → Option (List Char × List Char × Nat)
  | _, [] => none
  | acc, c :: cs =>
    if c = rbraceCh then
      match attemptFrom cs with
      | some (fromPart, pathCs, m) =>
        let items := lbraceCh :: acc ++ rbraceCh :: fromPart
        some (items, pathCs, items.length + m)
      | none => if c = nlCh then none else itemsLoop (acc ++ [c]) cs
    else if c = nlCh then none
    else itemsLoop (acc ++ [c]) cs

/-- Match the optional group `\x7b.*?\x7d\s+from\s+` followed by the
quote section: on success, the group capture (`items`), the path
capture, and the number of characters consumed from the opening brace
on. -/
def itemsSec (l : List Char) : Option (List Char × List Char × Nat) :=
  match l with
  | c :: cs => if c = lbraceCh then itemsLoop [] cs else none
  | [] => none

/-- Attempt the whole import regex at the head of the list: on success,
the `items` capture (empty when the group is absent), the `path`
capture, and the total match length.  The group-present alternative is
preferred, as for a greedy optional group. -/
def matchAt (l : List Char) : Option (List Char × List Char × Nat) :=
  match stripTok "import".data l with
  | none => none
  | some r1 =>
    let ws := r1.takeWhile isWsChar
    let r2 := r1.dropWhile isWsChar
    if ws.isEmpty then none
    else
      match itemsSec r2 with
      | some (items, pathCs, n) => some (items, pathCs, 6 + ws.length + n)
      | none =>
        match quoteSec r2 with
        | some (pathCs, m) => some ([], pathCs, 6 + ws.length + m)
        | none => none

/-! ### Import rewriting (`update_content`) -/

/-- The canonical form of an import target: the quoted path joined onto
the current contract directory and canonicalized, falling back to the
literal path on canonicalization failure
(`canonicalize().unwrap_or_else(...)`). -/
def canonicalImportPath (fs : FSModel) (dir : FsPath) (s : String) : FsPath :=
  match fs.canon (joinPathStr dir s) with
  | some p => p
  | none => stringToPath s

/-- The replacement text the closure inside `update_content` produces
for one matched import statement. -/
def replFor (fs : FSModel) (R : LocalRemapper) (dir : FsPath)
    (items pathCs : List Char) : List Char :=
  match alookup R.changed_filenames (canonicalImportPath fs dir (String.mk pathCs)) with
  | some pr => "import ".data ++ items ++ [dqCh] ++ "./".data ++ pr.2.data ++ [dqCh, semiCh]
  | none => "import ".data ++ items ++ [dqCh] ++ pathCs ++ [dqCh, semiCh]

/-- The `replace_all` scan: `skip` counts characters still inside the
previous match (no rescanning of replaced text); at `skip = 0` the
regex is attempted at the current position, and on failure one
character is copied through. -/
def scanAux (fs : FSModel) (R : LocalRemapper) (dir : FsPath) :
    Nat → List Char → List Char
  | _, [] => []
  | Nat.succ k, _ :: cs => scanAux fs R dir k cs
  | 0, c :: cs =>
    match matchAt (c :: cs) with
    | some (items, pathCs, n) =>
      replFor fs R dir items pathCs ++ scanAux fs R dir (n - 1) cs
    | none => c :: scanAux fs R dir 0 cs

/-- Model of `update_content`: the fixed pattern always compiles, so
the only outcome is `Ok` of the rewritten content. -/
def update_content (fs : FSModel) (R : LocalRemapper) (content : String)
    (current_contract_dir : FsPath) : Except Err String :=
  Except.ok (String.mk (scanAux fs R current_contract_dir 0 content.data))

/-! ### Duplicate resolution, path computation, writing, orchestration -/

/-- Model of `check_and_rename_contract`.  Note that the Rust function
receives `is_main_contract` but never reads it, and that the rename
record it returns in the `Option` is computed from
`format!("<temp>/<file>")` yet discarded by the caller. -/
def check_and_rename_contract (R : LocalRemapper) (path : FsPath)
    (source_content : String) (is_main_contract : Bool) :
    Except Err ((String × Option (FsPath × String)) × LocalRemapper) :=
  match file_stem path with
  | none => Except.error "Failed to extract contract name from path"
  | some contract_name =>
    match alookup R.contract_content_map contract_name with
    | some existing_content =>
      if existing_content ≠ source_content then
        let counter := (alookup R.contract_name_count contract_name).getD 0 + 1
        let R1 := { R with
          contract_name_count := ainsert R.contract_name_count contract_name counter }
        let new_contract_name := contract_name ++ "_" ++ toString counter
        let new_filename := new_contract_name ++ ".sol"
        let new_path := stringToPath (R.temp_directory ++ "/" ++ new_filename)
        Except.ok ((new_contract_name, some (new_path, new_filename)), R1)
      else
        Except.ok ((contract_name, none), R)
    | none =>
      let R1 := { R with
        contract_content_map := ainsert R.contract_content_map contract_name source_content }
      Except.ok ((contract_name, none), R1)

/-- Model of `get_new_path`: sibling temp directory of the original
file's parent, created if absent, joined with `<name>.sol`. -/
def get_new_path (fs : FSModel) (R : LocalRemapper) (original_path : FsPath)
    (new_contract_name : String) : Except Err FsPath :=
  match parent original_path with
  | none => Except.error "Failed to get the directory of the original file"
  | some original_dir =>
    let new_dir := joinPathStr original_dir R.temp_directory
    if !fs.dirExists new_dir && !fs.createDirOk new_dir then
      Except.error "Failed to create directory"
    else
      Except.ok (new_dir ++ [new_contract_name ++ ".sol"])

/-- Model of `write_contract`: create/overwrite the file, an IO failure
surfacing as an error. -/
def write_contract (fs : FSModel) (path : FsPath) (content : String) :
    Except Err Unit :=
  if fs.writeOk path then Except.ok () else Except.error "io error"

/-- One iteration of the loop body of `apply_local_remapping`, up to
but excluding the write: the updated state, the output path, and the
rewritten content. -/
def stepEntry (fs : FSModel) (main_contract_path : FsPath) (R : LocalRemapper)
    (path : FsPath) (content : String) :
    Except Err (LocalRemapper × FsPath × String) :=
  let is_main_contract := path == main_contract_path
  match check_and_rename_contract R path content is_main_contract with
  | Except.error e => Except.error e
  | Except.ok (new_contract_name, R1) =>
    match get_new_path fs R1 path new_contract_name.1 with
    | Except.error e => Except.error e
    | Except.ok new_path =>
      match parent path with
      | none => Except.error "Failed to get the directory of the current contract"
      | some current_contract_dir =>
        match update_content fs R1 content current_contract_dir with
        | Except.error e => Except.error e
        | Except.ok new_content => Except.ok (R1, new_path, new_content)

/-- The loop of `apply_local_remapping` over the bundle entries, in
order, threading the state and the list of performed writes (the
"disk"); processing halts at the first error, leaving the disk as it
was at that point. -/
def runEntries (fs : FSModel) (main_contract_path : FsPath) :
    LocalRemapper → List (FsPath × String) → List (FsPath × String) →
    List (FsPath × String) × Except Err LocalRemapper
  | R, disk, [] => (disk, Except.ok R)
  | R, disk, (path, content) :: rest =>
    match stepEntry fs main_contract_path R path content with
    | Except.error e => (disk, Except.error e)
    | Except.ok (R1, new_path, new_content) =>
      match write_contract fs new_path new_content with
      | Except.error e => (disk, Except.error e)
      | Except.ok _ =>
        runEntries fs main_contract_path R1 (disk ++ [(new_path, new_content)]) rest

/-- The `sources` of a `StandardJsonCompilerInput`, as the ordered list
of (path, content) pairs the loop iterates over. -/
structure StandardJsonCompilerInput where
  sources : List (FsPath × String)

/-- Model of `apply_local_remapping`. -/
def apply_local_remapping (fs : FSModel) (R : LocalRemapper)
    (standard_json : StandardJsonCompilerInput) (main_contract_path : FsPath) :
    List (FsPath × String) × Except Err LocalRemapper :=
  runEntries fs main_contract_path R [] standard_json.sources

/-! ### Association list lemmas -/

theorem alookup_ainsert_self {α β : Type} [DecidableEq α] (m : List (α × β)) (k : α) (v : β) :
    alookup (ainsert m k v) k = some v := by
  induction m with
  | nil => simp [ainsert, alookup]
  | cons kv rest ih =>
    obtain ⟨k1, v1⟩ := kv
    by_cases h : k1 = k
    · subst h; simp [ainsert, alookup]
    · simp [ainsert, alookup, h, ih]

theorem alookup_ainsert_ne {α β : Type} [DecidableEq α] (m : List (α × β)) (k a : α) (v : β)
    (h : k ≠ a) : alookup (ainsert m k v) a = alookup m a := by
  induction m with
  | nil => simp [ainsert, alookup, h]
  | cons kv rest ih =>
    obtain ⟨k1, v1⟩ := kv
    by_cases h1 : k1 = k
    · subst h1
      simp [ainsert, alookup, h]
    · by_cases h2 : k1 = a
      · subst h2; simp [ainsert, alookup, h1]
      · simp [ainsert, alookup, h1, h2, ih]

theorem string_append_assoc (a b c : String) : (a ++ b) ++ c = a ++ (b ++ c) := by
  cases a; cases b; cases c
  simp only [HAppend.hAppend, Append.append, String.append]
  exact congrArg String.mk (List.append_assoc _ _ _)

/-! ### Matcher lemmas -/

theorem matchAt_nil : matchAt [] = none := rfl

theorem matchAt_pos {l items pathCs : List Char} {n : Nat}
    (h : matchAt l = some (items, pathCs, n)) : 1 ≤ n := by
  simp only [matchAt] at h
  split at h
  · simp at h
  · split at h
    · simp at h
    · split at h
      · simp only [Option.some.injEq, Prod.mk.injEq] at h
        omega
      · split at h
        · simp only [Option.some.injEq, Prod.mk.injEq] at h
          omega
        · simp at h

theorem scanAux_skip (fs : FSModel) (R : LocalRemapper) (dir : FsPath) :
    ∀ (l : List Char) (k : Nat),
      scanAux fs R dir k l = scanAux fs R dir 0 (List.drop k l) := by
  intro l
  induction l with
  | nil => intro k; cases k <;> simp [scanAux]
  | cons c cs ih =>
    intro k
    cases k with
    | zero => simp
    | succ k =>
      show scanAux fs R dir k cs = _
      rw [ih k]
      simp

/-! ### State-preservation lemmas -/

theorem check_preserves_temp {R : LocalRemapper} {path : FsPath} {c : String} {f : Bool}
    {r : String × Option (FsPath × String)} {R1 : LocalRemapper}
    (h : check_and_rename_contract R path c f = Except.ok (r, R1)) :
    R1.temp_directory = R.temp_directory := by
  simp only [check_and_rename_contract] at h
  split at h
  · simp at h
  · split at h
    · split at h
      · simp only [Except.ok.injEq, Prod.mk.injEq] at h
        obtain ⟨-, h2⟩ := h; subst h2; rfl
      · simp only [Except.ok.injEq, Prod.mk.injEq] at h
        obtain ⟨-, h2⟩ := h; subst h2; rfl
    · simp only [Except.ok.injEq, Prod.mk.injEq] at h
      obtain ⟨-, h2⟩ := h; subst h2; rfl

theorem check_preserves_changed {R : LocalRemapper} {path : FsPath} {c : String} {f : Bool}
    {r : String × Option (FsPath × String)} {R1 : LocalRemapper}
    (h : check_and_rename_contract R path c f = Except.ok (r, R1)) :
    R1.changed_filenames = R.changed_filenames := by
  simp only [check_and_rename_contract] at h
  split at h
  · simp at h
  · split at h
    · split at h
      · simp only [Except.ok.injEq, Prod.mk.injEq] at h
        obtain ⟨-, h2⟩ := h; subst h2; rfl
      · simp only [Except.ok.injEq, Prod.mk.injEq] at h
        obtain ⟨-, h2⟩ := h; subst h2; rfl
    · simp only [Except.ok.injEq, Prod.mk.injEq] at h
      obtain ⟨-, h2⟩ := h; subst h2; rfl

theorem check_preserves_content {R : LocalRemapper} {path : FsPath} {c : String} {f : Bool}
    {r : String × Option (FsPath × String)} {R1 : LocalRemapper}
    (h : check_and_rename_contract R path c f = Except.ok (r, R1))
    {b : String} {v : String} (hb : alookup R.contract_content_map b = some v) :
    alookup R1.contract_content_map b = some v := by
  simp only [check_and_rename_contract] at h
  split at h
  · simp at h
  · rename_i contract_name hstem
    split at h
    · split at h
      · simp only [Except.ok.injEq, Prod.mk.injEq] at h
        obtain ⟨-, h2⟩ := h; subst h2; exact hb
      · simp only [Except.ok.injEq, Prod.mk.injEq] at h
        obtain ⟨-, h2⟩ := h; subst h2; exact hb
    · rename_i hnone
      simp only [Except.ok.injEq, Prod.mk.injEq] at h
      obtain ⟨-, h2⟩ := h; subst h2
      by_cases hbe : contract_name = b
      · subst hbe; rw [hnone] at hb; cases hb
      · show alookup (ainsert R.contract_content_map contract_name c) b = some v
        rw [alookup_ainsert_ne _ _ _ _ hbe]; exact hb

theorem get_new_path_ok {fs : FSModel} {R : LocalRemapper} {p np : FsPath} {nm : String}
    (h : get_new_path fs R p nm = Except.ok np) :
    ∃ dir, parent p = some dir ∧ np = joinPathStr dir R.temp_directory ++ [nm ++ ".sol"] := by
  simp only [get_new_path] at h
  cases hpar : parent p with
  | none => rw [hpar] at h; simp at h
  | some dir =>
    rw [hpar] at h
    simp only at h
    split at h
    · simp at h
    · simp only [Except.ok.injEq] at h
      exact ⟨dir, rfl, h.symm⟩

theorem stepEntry_shape {fs : FSModel} {main : FsPath} {R R1 : LocalRemapper}
    {p np : FsPath} {c nc : String}
    (h : stepEntry fs main R p c = Except.ok (R1, np, nc)) :
    R1.temp_directory = R.temp_directory ∧
    R1.changed_filenames = R.changed_filenames ∧
    (∀ b v, alookup R.contract_content_map b = some v →
      alookup R1.contract_content_map b = some v) ∧
    ∃ dir nm, parent p = some dir ∧
      np = joinPathStr dir R.temp_directory ++ [nm ++ ".sol"] := by
  simp only [stepEntry] at h
  cases hcheck : check_and_rename_contract R p c (p == main) with
  | error e => rw [hcheck] at h; simp at h
  | ok res =>
    rw [hcheck] at h
    obtain ⟨ncn, Rc⟩ := res
    simp only at h
    cases hget : get_new_path fs Rc p ncn.1 with
    | error e => rw [hget] at h; simp at h
    | ok np2 =>
      rw [hget] at h
      simp only at h
      cases hpar : parent p with
      | none => rw [hpar] at h; simp at h
      | some dir =>
        rw [hpar] at h
        simp only [update_content, Except.ok.injEq, Prod.mk.injEq] at h
        obtain ⟨h1, h2, h3⟩ := h
        subst h1; subst h2
        refine ⟨check_preserves_temp hcheck, check_preserves_changed hcheck,
          fun b v hb => check_preserves_content hcheck hb, ?_⟩
        obtain ⟨dir2, hdir2, hshape⟩ := get_new_path_ok hget
        rw [hpar] at hdir2
        have hdd : dir = dir2 := Option.some.inj hdir2
        subst hdd
        exact ⟨dir, ncn.1, rfl, by rw [hshape, check_preserves_temp hcheck]⟩

theorem stepEntry_main_irrel (fs : FSModel) (m1 m2 : FsPath) (R : LocalRemapper)
    (p : FsPath) (c : String) :
    stepEntry fs m1 R p c = stepEntry fs m2 R p c := rfl

/-! ### Orchestration lemmas -/

theorem runEntries_disk_acc (fs : FSModel) (main : FsPath) :
    ∀ (l : List (FsPath × String)) (R : LocalRemapper) (d : List (FsPath × String)),
      runEntries fs main R d l =
        (d ++ (runEntries fs main R [] l).1, (runEntries fs main R [] l).2) := by
  intro l
  induction l with
  | nil => intro R d; simp [runEntries]
  | cons e rest ih =>
    intro R d
    obtain ⟨p, c⟩ := e
    simp only [runEntries]
    cases hs : stepEntry fs main R p c with
    | error e1 => simp
    | ok res =>
      obtain ⟨R1, np, nc⟩ := res
      simp only
      cases hw : write_contract fs np nc with
      | error e1 => simp
      | ok u =>
        simp only [List.nil_append]
        rw [ih R1 (d ++ [(np, nc)]), ih R1 [(np, nc)]]
        simp

/-! ### The frame decomposition of a rewrite -/

/-- A decomposition witnessing that the output text is the input text
in which some prefixes matched by the import pattern (as `matchAt`
decides, with the consumed length it reports) are replaced by the
replacement text, and every character outside those matches is copied
through unchanged, in order. -/
inductive Frames (fs : FSModel) (R : LocalRemapper) (dir : FsPath) :
    List Char → List Char → Prop
  | nil : Frames fs R dir [] []
  | gap (c : Char) {cs out : List Char} :
      Frames fs R dir cs out → Frames fs R dir (c :: cs) (c :: out)
  | rep {l out : List Char} (items pathCs : List Char) (n : Nat) :
      matchAt l = some (items, pathCs, n) →
      Frames fs R dir (List.drop n l) out →
      Frames fs R dir l (replFor fs R dir items pathCs ++ out)

theorem frames_scanAux (fs : FSModel) (R : LocalRemapper) (dir : FsPath) :
    ∀ (N : Nat) (l : List Char), l.length ≤ N →
      Frames fs R dir l (scanAux fs R dir 0 l) := by
  intro N
  induction N with
  | zero =>
    intro l hl
    have hnil : l = [] := by cases l with
      | nil => rfl
      | cons c cs => simp at hl
    subst hnil
    exact Frames.nil
  | succ N ih =>
    intro l hl
    cases l with
    | nil => exact Frames.nil
    | cons c cs =>
      cases hm : matchAt (c :: cs) with
      | none =>
        have hred : scanAux fs R dir 0 (c :: cs) = c :: scanAux fs R dir 0 cs := by
          simp [scanAux, hm]
        rw [hred]
        exact Frames.gap c (ih cs (by simp only [List.length_cons] at hl; omega))
      | some r =>
        obtain ⟨items, pathCs, n⟩ := r
        have hpos : 1 ≤ n := matchAt_pos hm
        have hred : scanAux fs R dir 0 (c :: cs) =
            replFor fs R dir items pathCs ++ scanAux fs R dir 0 (List.drop n (c :: cs)) := by
          simp only [scanAux, hm]
          rw [scanAux_skip]
          cases n with
          | zero => omega
          | succ m => simp
        rw [hred]
        refine Frames.rep items pathCs n hm (ih _ ?_)
        simp only [List.length_drop, List.length_cons] at *
        omega

/-! ### Concrete fixtures for evaluated runs -/

/-- A filesystem on which canonicalization always fails, directories
exist, and writes succeed. -/
def fsT : FSModel :=
  { canon := fun _ => none, dirExists := fun _ => true,
    createDirOk := fun _ => true, writeOk := fun _ => true }

/-- A filesystem resolving the relative reference `./A.sol` written in
directory `/b` to the file `/b/A.sol`, and canonicalizing every other
path to itself. -/
def fsC1 : FSModel :=
  { canon := fun p => if p = ["", "b", ".", "A.sol"] then some ["", "b", "A.sol"] else some p,
    dirExists := fun _ => true, createDirOk := fun _ => true, writeOk := fun _ => true }

/-- A filesystem on which every file write fails. -/
def fsBad : FSModel :=
  { canon := fun _ => none, dirExists := fun _ => true,
    createDirOk := fun _ => true, writeOk := fun _ => false }

/-- A fresh remapper with temp directory `out` and empty configuration. -/
def R0 : LocalRemapper := LocalRemapper.new "out" [] []

/-- The single-quote character as a string, for building test inputs. -/
def sqS : String := String.singleton sqCh

/-- Helper invariant: a run never touches `changed_filenames`; the rename
record computed by `check_and_rename_contract` is discarded by the caller,
so the map stays exactly as it started. -/
theorem runEntries_changed_filenames_invariant (fs : FSModel) (main : FsPath) :
    ∀ (l : List (FsPath × String)) (R : LocalRemapper)
      (disk d : List (FsPath × String)) (Rend : LocalRemapper),
      runEntries fs main R disk l = (d, Except.ok Rend) →
      Rend.changed_filenames = R.changed_filenames := by
  intro l
  induction l with
  | nil =>
    intro R disk d Rend h
    simp only [runEntries, Prod.mk.injEq, Except.ok.injEq] at h
    obtain ⟨-, h2⟩ := h
    rw [← h2]
  | cons ent rest ih =>
    intro R disk d Rend h
    obtain ⟨p, c⟩ := ent
    simp only [runEntries] at h
    cases hs : stepEntry fs main R p c with
    | error e1 => rw [hs] at h; simp at h
    | ok res =>
      obtain ⟨R1, np, nc⟩ := res
      rw [hs] at h
      simp only at h
      cases hw : write_contract fs np nc with
      | error e1 => rw [hw] at h; simp at h
      | ok u =>
        rw [hw] at h
        simp only at h
        obtain ⟨-, hch, -, -⟩ := stepEntry_shape hs
        rw [ih R1 _ d Rend h, hch]

/-! ### Claims -/

/-- C1: the claim says an import whose quoted path canonicalizes to a
renamed file's original path is rewritten to `./<new filename>`.  On the
code this never happens: the rename record returned by
`check_and_rename_contract` is dropped and `changed_filenames` stays
empty.  Here `/b/A.sol` is renamed (written as `A_1.sol`), the import
`./A.sol` in `/b/B.sol` canonicalizes to `/b/A.sol`, yet the written
content of `B.sol` still references `./A.sol`, and the final state's
`changed_filenames` is empty. -/
theorem C1_renamed_import_not_rewritten :
    canonicalImportPath fsC1 ["", "b"] "./A.sol" = ["", "b", "A.sol"] ∧
    apply_local_remapping fsC1 R0
      ⟨[ (["", "a", "A.sol"], "contract A1"),
         (["", "b", "A.sol"], "contract A2"),
         (["", "b", "B.sol"], "import \"./A.sol\";") ]⟩ ["", "b", "B.sol"] =
      ([ (["", "a", "out", "A.sol"], "contract A1"),
         (["", "b", "out", "A_1.sol"], "contract A2"),
         (["", "b", "out", "B.sol"], "import \"./A.sol\";") ],
       Except.ok ⟨"out", [], [], [],
         [("A", 1)], [("A", "contract A1"), ("B", "import \"./A.sol\";")], []⟩) :=
  ⟨rfl, rfl⟩

/-- C2: the claim says every renamed file's canonical original path is
recorded in `path_map` (`changed_filenames`).  On the code nothing is
ever inserted into `changed_filenames`: here the second `A.sol` is
renamed (written as `A_1.sol`, counter entry created) yet the final
state's `changed_filenames` is the empty map. -/
theorem C2_path_map_never_recorded :
    apply_local_remapping fsT R0
      ⟨[ (["", "a", "A.sol"], "X"), (["", "b", "A.sol"], "Y") ]⟩ ["", "a", "A.sol"] =
      ([ (["", "a", "out", "A.sol"], "X"), (["", "b", "out", "A_1.sol"], "Y") ],
       Except.ok ⟨"out", [], [], [], [("A", 1)], [("A", "X")], []⟩) :=
  rfl

/-- C3 counterexample: a matched import statement written with single
quotes, whose target is not in the rename map (the map is empty), is
not left byte-identical: the quote character is normalized to double
quotes by the reconstruction `format!("import \x7b\x7d\"\x7b\x7d\";")`. -/
theorem C3_counterexample :
    update_content fsT R0 ("import " ++ sqS ++ "A.sol" ++ sqS ++ ";") ["", "p"] =
      Except.ok "import \"A.sol\";" ∧
    ("import \"A.sol\";" : String) ≠ "import " ++ sqS ++ "A.sol" ++ sqS ++ ";" :=
  ⟨rfl, by decide⟩

/-- C3 amended: a matched import statement whose resolved target is not
found in the rename map is reconstructed as
`import <items>"<path>";` — the quoted path text and any named-import
clause are preserved verbatim, but the quote characters are normalized
to double quotes and the whitespace after the `import` keyword is
collapsed to a single space, so the statement is not in general left
byte-identical. -/
theorem C3_amended_normalized_passthrough (fs : FSModel) (R : LocalRemapper) (dir : FsPath)
    (l items pathCs : List Char) (n : Nat)
    (hm : matchAt l = some (items, pathCs, n))
    (hmiss : alookup R.changed_filenames (canonicalImportPath fs dir (String.mk pathCs)) = none) :
    scanAux fs R dir 0 l =
      ("import ".data ++ items ++ [dqCh] ++ pathCs ++ [dqCh, semiCh]) ++
        scanAux fs R dir 0 (List.drop n l) := by
  cases l with
  | nil => rw [matchAt_nil] at hm; cases hm
  | cons c cs =>
    have hpos := matchAt_pos hm
    have hred : scanAux fs R dir 0 (c :: cs) =
        replFor fs R dir items pathCs ++ scanAux fs R dir 0 (List.drop n (c :: cs)) := by
      simp only [scanAux, hm]
      rw [scanAux_skip]
      cases n with
      | zero => omega
      | succ m => simp
    rw [hred]
    simp only [replFor, hmiss]

/-- C3 amended, witnessed on the single-quoted statement of the
counterexample. -/
theorem C3_amended_witness :
    scanAux fsT R0 ["", "p"] 0 ("import " ++ sqS ++ "A.sol" ++ sqS ++ ";").data =
      ("import ".data ++ ([] : List Char) ++ [dqCh] ++ "A.sol".data ++ [dqCh, semiCh]) ++
        scanAux fsT R0 ["", "p"] 0
          (List.drop 15 ("import " ++ sqS ++ "A.sol" ++ sqS ++ ";").data) :=
  C3_amended_normalized_passthrough fsT R0 ["", "p"]
    ("import " ++ sqS ++ "A.sol" ++ sqS ++ ";").data [] "A.sol".data 15 rfl rfl

/-- C4 counterexample: the output extension does not equal the source
extension: for input `/p/A.txt` the single written file is
`/p/out/A.sol`, because `get_new_path` hardcodes the `.sol` suffix. -/
theorem C4_counterexample :
    (apply_local_remapping fsT R0 ⟨[ (["", "p", "A.txt"], "x") ]⟩ ["", "p", "A.txt"]).1 =
      [ (["", "p", "out", "A.sol"], "x") ] ∧
    extension ["", "p", "A.txt"] = some "txt" ∧
    extension ["", "p", "out", "A.sol"] = some "sol" ∧
    ("sol" : String) ≠ "txt" :=
  ⟨rfl, rfl, rfl, by decide⟩

/-- C4 amended: in a successful run, exactly one file is written per
input source, in bundle order, at
`<original parent directory>/<temp-directory>/<final name>.sol` — the
written extension is always `.sol`, not the source file's extension. -/
theorem C4_one_write_per_entry_sol_extension (fs : FSModel) (main : FsPath)
    (R : LocalRemapper) (l d : List (FsPath × String)) (Rend : LocalRemapper)
    (h : runEntries fs main R [] l = (d, Except.ok Rend)) :
    d.length = l.length ∧
    ∀ pr ∈ List.zip l d, ∃ dir nm,
      parent pr.1.1 = some dir ∧
      pr.2.1 = joinPathStr dir R.temp_directory ++ [nm ++ ".sol"] := by
  induction l generalizing R d with
  | nil =>
    simp only [runEntries, Prod.mk.injEq] at h
    obtain ⟨h1, -⟩ := h
    subst h1
    simp
  | cons ent rest ih =>
    obtain ⟨p, c⟩ := ent
    simp only [runEntries] at h
    cases hs : stepEntry fs main R p c with
    | error e1 => rw [hs] at h; simp at h
    | ok res =>
      rw [hs] at h
      obtain ⟨R1, np, nc⟩ := res
      simp only at h
      cases hw : write_contract fs np nc with
      | error e1 => rw [hw] at h; simp at h
      | ok u =>
        rw [hw] at h
        simp only [List.nil_append] at h
        rw [runEntries_disk_acc fs main rest R1 [(np, nc)]] at h
        simp only [Prod.mk.injEq] at h
        obtain ⟨h1, h2⟩ := h
        have hrun : runEntries fs main R1 [] rest =
            ((runEntries fs main R1 [] rest).1, Except.ok Rend) := by
          rw [← h2]
        obtain ⟨hlen, hprop⟩ := ih R1 (runEntries fs main R1 [] rest).1 hrun
        subst h1
        obtain ⟨htemp, -, -, dir, nm, hpar, hnp⟩ := stepEntry_shape hs
        constructor
        · simp [hlen]
        · intro pr hmem
          have hmem2 : pr = ((p, c), (np, nc)) ∨
              pr ∈ List.zip rest (runEntries fs main R1 [] rest).1 := by
            simp only [List.singleton_append] at hmem
            rw [List.zip_cons_cons] at hmem
            exact List.mem_cons.mp hmem
          rcases hmem2 with rfl | hmem2
          · exact ⟨dir, nm, hpar, hnp⟩
          · obtain ⟨d2, n2, hp2, hq2⟩ := hprop pr hmem2
            exact ⟨d2, n2, hp2, by rw [hq2, htemp]⟩

/-- C4 amended, witnessed: the single-entry run of `/p/A.txt` writes
exactly one file whose name carries the `.sol` suffix. -/
theorem C4_amended_witness :
    ([(["", "p", "out", "A.sol"], "x")] : List (FsPath × String)).length =
      ([((["", "p", "A.txt"] : FsPath), "x")]).length ∧
    ∀ pr ∈ List.zip [((["", "p", "A.txt"] : FsPath), "x")]
        [((["", "p", "out", "A.sol"] : FsPath), "x")],
      ∃ dir nm, parent pr.1.1 = some dir ∧
        pr.2.1 = joinPathStr dir R0.temp_directory ++ [nm ++ ".sol"] :=
  C4_one_write_per_entry_sol_extension fsT ["", "p", "A.txt"] R0
    [(["", "p", "A.txt"], "x")] [(["", "p", "out", "A.sol"], "x")]
    ⟨"out", [], [], [], [], [("A", "x")], []⟩ rfl

/-- C5 counterexample: the second and third files share the base name
`A` and have byte-identical content `Y`, yet they resolve to the
different final names `A_1` and `A_2` (both renamed), because each is
compared against the first-seen content `X`, not against each other. -/
theorem C5_counterexample :
    (apply_local_remapping fsT R0
      ⟨[ (["", "1", "A.sol"], "X"), (["", "2", "A.sol"], "Y"), (["", "3", "A.sol"], "Y") ]⟩
      ["", "1", "A.sol"]).1.map Prod.fst =
      [ ["", "1", "out", "A.sol"], ["", "2", "out", "A_1.sol"], ["", "3", "out", "A_2.sol"] ] ∧
    file_stem ["", "2", "A.sol"] = file_stem ["", "3", "A.sol"] ∧
    (["", "2", "out", "A_1.sol"] : FsPath) ≠ ["", "3", "out", "A_2.sol"] :=
  ⟨rfl, rfl, by decide⟩

/-- C5 amended: two files sharing a base name whose common content is
byte-identical to the content stored for that base name (the content of
the first file seen with it) both resolve to the base name unchanged,
neither is renamed, and the state — in particular the collision
counter map — is left untouched. -/
theorem C5_amended_first_seen_duplicates_collapse (R : LocalRemapper)
    (p1 p2 : FsPath) (c b : String) (f1 f2 : Bool)
    (h1 : file_stem p1 = some b) (h2 : file_stem p2 = some b)
    (hc : alookup R.contract_content_map b = some c) :
    check_and_rename_contract R p1 c f1 = Except.ok ((b, none), R) ∧
    check_and_rename_contract R p2 c f2 = Except.ok ((b, none), R) := by
  refine ⟨?_, ?_⟩
  · simp [check_and_rename_contract, h1, hc]
  · simp [check_and_rename_contract, h2, hc]

/-- C5 amended, witnessed on a state that has already seen `A` with
content `X`. -/
theorem C5_amended_witness :
    check_and_rename_contract ⟨"out", [], [], [], [], [("A", "X")], []⟩
        ["", "p", "A.sol"] "X" false =
      Except.ok (("A", none), ⟨"out", [], [], [], [], [("A", "X")], []⟩) ∧
    check_and_rename_contract ⟨"out", [], [], [], [], [("A", "X")], []⟩
        ["", "q", "A.sol"] "X" true =
      Except.ok (("A", none), ⟨"out", [], [], [], [], [("A", "X")], []⟩) :=
  C5_amended_first_seen_duplicates_collapse ⟨"out", [], [], [], [], [("A", "X")], []⟩
    ["", "p", "A.sol"] ["", "q", "A.sol"] "X" "A" false true rfl rfl rfl

/-- C6: the first file with a fresh base name keeps the base name; the
second and third files with the same base name and pairwise distinct
contents receive `<base>_1` and `<base>_2`; the counter for that base
goes `none`, `1`, `2` (strictly increasing), and counters of every
other base name are left untouched. -/
theorem C6_collision_counters (R : LocalRemapper) (p0 p1 p2 : FsPath)
    (c0 c1 c2 b : String) (f0 f1 f2 : Bool)
    (hs0 : file_stem p0 = some b) (hs1 : file_stem p1 = some b) (hs2 : file_stem p2 = some b)
    (hfresh : alookup R.contract_content_map b = none)
    (hcnt : alookup R.contract_name_count b = none)
    (h10 : c1 ≠ c0) (h20 : c2 ≠ c0) (h21 : c2 ≠ c1) :
    ∃ R1 R2 R3 q1 q2,
      check_and_rename_contract R p0 c0 f0 = Except.ok ((b, none), R1) ∧
      check_and_rename_contract R1 p1 c1 f1 = Except.ok ((b ++ "_1", some q1), R2) ∧
      check_and_rename_contract R2 p2 c2 f2 = Except.ok ((b ++ "_2", some q2), R3) ∧
      alookup R1.contract_name_count b = none ∧
      alookup R2.contract_name_count b = some 1 ∧
      alookup R3.contract_name_count b = some 2 ∧
      (∀ b2, b2 ≠ b → alookup R3.contract_name_count b2 = alookup R.contract_name_count b2) := by
  refine ⟨{ R with contract_content_map := ainsert R.contract_content_map b c0 },
    { R with
      contract_content_map := ainsert R.contract_content_map b c0,
      contract_name_count := ainsert R.contract_name_count b 1 },
    { R with
      contract_content_map := ainsert R.contract_content_map b c0,
      contract_name_count := ainsert (ainsert R.contract_name_count b 1) b 2 },
    (stringToPath (R.temp_directory ++ "/" ++ ((b ++ "_1") ++ ".sol")), (b ++ "_1") ++ ".sol"),
    (stringToPath (R.temp_directory ++ "/" ++ ((b ++ "_2") ++ ".sol")), (b ++ "_2") ++ ".sol"),
    ?_, ?_, ?_, ?_, ?_, ?_, ?_⟩
  · simp [check_and_rename_contract, hs0, hfresh]
  · simp only [check_and_rename_contract, hs1, alookup_ainsert_self]
    rw [if_pos (by exact fun hh => h10 hh.symm)]
    simp only [hcnt, Option.getD_none, Except.ok.injEq, Prod.mk.injEq]
    rw [show (b ++ "_") ++ toString (0 + 1) = b ++ "_1" by rw [string_append_assoc]; rfl]
    refine ⟨⟨?_, ?_⟩, ?_⟩ <;> first | rfl | trivial
  · simp only [check_and_rename_contract, hs2, alookup_ainsert_self]
    rw [if_pos (by exact fun hh => h20 hh.symm)]
    simp only [alookup_ainsert_self, Option.getD_some, Except.ok.injEq, Prod.mk.injEq]
    rw [show (b ++ "_") ++ toString (1 + 1) = b ++ "_2" by rw [string_append_assoc]; rfl]
    refine ⟨⟨?_, ?_⟩, ?_⟩ <;> first | rfl | trivial
  · exact hcnt
  · exact alookup_ainsert_self _ _ _
  · exact alookup_ainsert_self _ _ _
  · intro b2 hne
    rw [alookup_ainsert_ne _ _ _ _ (fun hh => hne hh.symm),
      alookup_ainsert_ne _ _ _ _ (fun hh => hne hh.symm)]

/-- C6, witnessed with three distinct contents under the base name `A`. -/
theorem C6_witness :
    ∃ R1 R2 R3 q1 q2,
      check_and_rename_contract R0 ["", "x", "A.sol"] "X" false =
        Except.ok (("A", none), R1) ∧
      check_and_rename_contract R1 ["", "y", "A.sol"] "Y" false =
        Except.ok (("A" ++ "_1", some q1), R2) ∧
      check_and_rename_contract R2 ["", "z", "A.sol"] "Z" false =
        Except.ok (("A" ++ "_2", some q2), R3) ∧
      alookup R1.contract_name_count "A" = none ∧
      alookup R2.contract_name_count "A" = some 1 ∧
      alookup R3.contract_name_count "A" = some 2 ∧
      (∀ b2, b2 ≠ "A" →
        alookup R3.contract_name_count b2 = alookup R0.contract_name_count b2) :=
  C6_collision_counters R0 ["", "x", "A.sol"] ["", "y", "A.sol"] ["", "z", "A.sol"]
    "X" "Y" "Z" "A" false false false rfl rfl rfl rfl rfl
    (by decide) (by decide) (by decide)

/-- C7: when processing a prefix of the bundle ends in an error, running
the remapper on that prefix extended by any further entries produces the
same error and the same disk: the run stops at the first error, the
error is propagated, no later entry is processed or written, and the
files written before the failure stay on the disk unchanged. -/
theorem C7_halt_on_first_error (fs : FSModel) (main : FsPath) :
    ∀ (l post : List (FsPath × String)) (R : LocalRemapper)
      (disk d : List (FsPath × String)) (e : Err),
      runEntries fs main R disk l = (d, Except.error e) →
      runEntries fs main R disk (l ++ post) = (d, Except.error e) := by
  intro l
  induction l with
  | nil =>
    intro post R disk d e h
    simp only [runEntries, Prod.mk.injEq] at h
    obtain ⟨-, h2⟩ := h
    cases h2
  | cons ent rest ih =>
    intro post R disk d e h
    obtain ⟨p, c⟩ := ent
    simp only [List.cons_append, runEntries] at h ⊢
    cases hs : stepEntry fs main R p c with
    | error e1 => rw [hs] at h; simpa using h
    | ok res =>
      obtain ⟨R1, np, nc⟩ := res
      rw [hs] at h
      simp only at h ⊢
      cases hw : write_contract fs np nc with
      | error e1 => rw [hw] at h; simpa using h
      | ok u =>
        rw [hw] at h
        simp only at h ⊢
        exact ih post R1 (disk ++ [(np, nc)]) d e h

/-- C7, witnessed: with all writes failing, the first entry errors with
the IO error, and appending a second entry leaves the result — error
and (empty) disk — unchanged. -/
theorem C7_witness :
    runEntries fsBad ["", "p", "A.sol"] R0 []
      ([(["", "p", "A.sol"], "x")] ++ [(["", "q", "B.sol"], "y")]) =
      ([], Except.error "io error") :=
  C7_halt_on_first_error fsBad ["", "p", "A.sol"] [(["", "p", "A.sol"], "x")]
    [(["", "q", "B.sol"], "y")] R0 [] [] "io error" rfl

/-- C8: `update_content` returns the scan's output, and that output is
a frame-preserving rewrite of the input: it decomposes into the input's
characters copied through unchanged, except that prefixes matched by
the import pattern are replaced by their computed replacement text —
text outside matched import statements is preserved byte-for-byte. -/
theorem C8_frame_preservation (fs : FSModel) (R : LocalRemapper) (dir : FsPath)
    (content : String) :
    update_content fs R content dir =
      Except.ok (String.mk (scanAux fs R dir 0 content.data)) ∧
    Frames fs R dir content.data (scanAux fs R dir 0 content.data) :=
  ⟨rfl, frames_scanAux fs R dir content.data.length content.data (Nat.le_refl _)⟩

/-- C9: the designated main-file path does not alter any step's
behavior: for a fixed filesystem, state, and bundle, two runs that
differ only in the main-file path are equal as functions — same writes,
same final state, same error, step by step. -/
theorem C9_main_file_irrelevant (fs : FSModel) (R : LocalRemapper)
    (standard_json : StandardJsonCompilerInput) (m1 m2 : FsPath) :
    apply_local_remapping fs R standard_json m1 =
      apply_local_remapping fs R standard_json m2 := by
  unfold apply_local_remapping
  suffices h : ∀ (l : List (FsPath × String)) (R : LocalRemapper)
      (disk : List (FsPath × String)),
      runEntries fs m1 R disk l = runEntries fs m2 R disk l by
    exact h standard_json.sources R []
  intro l
  induction l with
  | nil => intro R disk; rfl
  | cons ent rest ih =>
    intro R disk
    obtain ⟨p, c⟩ := ent
    simp only [runEntries]
    rw [stepEntry_main_irrel fs m1 m2 R p c]
    cases stepEntry fs m2 R p c with
    | error e => rfl
    | ok res =>
      obtain ⟨R1, np, nc⟩ := res
      simp only
      cases write_contract fs np nc with
      | error e => rfl
      | ok u =>
        simp only
        exact ih R1 (disk ++ [(np, nc)])

/-- C10: first, throughout a successful run the content stored in
`contract_content_map` for a base name is never overwritten — whatever
the map holds for a base name at the start still stands at the end;
second, when a base name already has a stored content, a later file
with that base name is renamed precisely when its content differs from
that stored (first-seen) content, so duplicate detection compares only
against the first-seen content, never against renamed collisions. -/
theorem C10_content_map_first_seen :
    (∀ (fs : FSModel) (main : FsPath) (l : List (FsPath × String)) (R : LocalRemapper)
       (disk d : List (FsPath × String)) (Rend : LocalRemapper),
       runEntries fs main R disk l = (d, Except.ok Rend) →
       ∀ b v, alookup R.contract_content_map b = some v →
         alookup Rend.contract_content_map b = some v) ∧
    (∀ (R : LocalRemapper) (p : FsPath) (c : String) (f : Bool) (nm : String)
       (ren : Option (FsPath × String)) (R1 : LocalRemapper) (b v : String),
       file_stem p = some b →
       alookup R.contract_content_map b = some v →
       check_and_rename_contract R p c f = Except.ok ((nm, ren), R1) →
       (ren.isSome = true ↔ v ≠ c)) := by
  constructor
  · intro fs main l
    induction l with
    | nil =>
      intro R disk d Rend h b v hb
      simp only [runEntries, Prod.mk.injEq, Except.ok.injEq] at h
      obtain ⟨-, h2⟩ := h
      rw [← h2]
      exact hb
    | cons ent rest ih =>
      intro R disk d Rend h b v hb
      obtain ⟨p, c⟩ := ent
      simp only [runEntries] at h
      cases hs : stepEntry fs main R p c with
      | error e1 => rw [hs] at h; simp at h
      | ok res =>
        obtain ⟨R1, np, nc⟩ := res
        rw [hs] at h
        simp only at h
        cases hw : write_contract fs np nc with
        | error e1 => rw [hw] at h; simp at h
        | ok u =>
          rw [hw] at h
          simp only at h
          obtain ⟨-, -, hcont, -⟩ := stepEntry_shape hs
          exact ih R1 _ d Rend h b v (hcont b v hb)
  · intro R p c f nm ren R1 b v hstem hb hchk
    simp only [check_and_rename_contract, hstem, hb] at hchk
    by_cases hvc : v = c
    · subst hvc
      rw [if_neg (by simp)] at hchk
      simp only [Except.ok.injEq, Prod.mk.injEq] at hchk
      obtain ⟨⟨-, hren⟩, -⟩ := hchk
      rw [← hren]
      simp
    · rw [if_pos hvc] at hchk
      simp only [Except.ok.injEq, Prod.mk.injEq] at hchk
      obtain ⟨⟨-, hren⟩, -⟩ := hchk
      rw [← hren]
      simp [hvc]

/-- C10, witnessed: running one unrelated file preserves the stored
entry for `A`, and on a state that stored `X` for `A`, a file with
content `y` is renamed since `X` differs from `y`. -/
theorem C10_witness :
    alookup (⟨"out", [], [], [], [], [("A", "X"), ("B", "y")], []⟩ :
        LocalRemapper).contract_content_map "A" = some "X" ∧
    ((some ((["out", "A_1.sol"] : FsPath), "A_1.sol")).isSome = true ↔ ("X" : String) ≠ "y") :=
  ⟨C10_content_map_first_seen.1 fsT ["", "p", "B.sol"] [(["", "p", "B.sol"], "y")]
      ⟨"out", [], [], [], [], [("A", "X")], []⟩ [] [(["", "p", "out", "B.sol"], "y")]
      ⟨"out", [], [], [], [], [("A", "X"), ("B", "y")], []⟩ rfl "A" "X" rfl,
    C10_content_map_first_seen.2 ⟨"out", [], [], [], [], [("A", "X")], []⟩
      ["", "q", "A.sol"] "y" false ("A" ++ "_" ++ toString 1)
      (some ((["out", "A_1.sol"] : FsPath), "A_1.sol"))
      ⟨"out", [], [], [], [("A", 1)], [("A", "X")], []⟩ "A" "X" rfl rfl rfl⟩

end Remap
